import Mathlib

/-!
Verification of the GitGlance client-side data-synchronization and
view-state engine (src/App.tsx, primary variant at lines 1-1339, plus
src/types.ts).  The TypeScript source is shallowly embedded: React state
is explicit record passing, async completions are explicit resolution
functions, strings are lists of characters, and the GitHub / Gemini
collaborators are parameters of the resolution functions.
-/

/-- Tabs of the dashboard (src/types.ts `TabType`). -/
inductive Tab
| trending
| latest
| saved
deriving DecidableEq, Repr

/-- Time ranges (src/App.tsx `TimeRange`). -/
inductive TimeRange
| today
| week
| month
deriving DecidableEq, Repr

/-- The fields of `GithubRepo` (src/types.ts) that the modelled operations
read: `id`, `name`, `owner.login`, `description`, `language`, `topics`.
The remaining fields (`full_name`, `html_url`, the numeric counters and the
two timestamps) are carried by the TypeScript record but never inspected by
`fetchRepos`, `toggleSave`, `filteredRepos` or `runSmartFilter`, so they are
omitted from the embedding.  Strings are `List Char`. -/
structure Repo where
  id : Int
  name : List Char
  ownerLogin : List Char
  description : Option (List Char)
  language : Option (List Char)
  topics : List (List Char)
deriving DecidableEq, Repr

/-- `SavedRepo` (src/types.ts): a repository plus the `savedAt` epoch
timestamp attached when it was saved. -/
structure SavedRepo where
  repo : Repo
  savedAt : Int
deriving DecidableEq, Repr

/-- `startsWithChars hay needle` models JavaScript prefix comparison used by
substring search: `needle` read off the front of `hay`. -/
def startsWithChars : List Char → List Char → Bool
| _, [] => true
| [], _ :: _ => false
| a :: as, b :: bs => a == b && startsWithChars as bs

/-- `hasSubstr needle hay` models JavaScript `hay.includes(needle)`:
`needle` occurs contiguously somewhere in `hay`. -/
def hasSubstr (needle : List Char) : List Char → Bool
| [] => needle.isEmpty
| h :: t => startsWithChars (h :: t) needle || hasSubstr needle t

/-- Models JavaScript `String.prototype.toLowerCase` on the embedded
strings. -/
def lowerChars (s : List Char) : List Char := s.map Char.toLower

/-- The keyword predicate of `filteredRepos` (src/App.tsx:989-994): the
query is a case-insensitive substring of the name, the owner login, or the
description (`r.description?.toLowerCase().includes(...)` is false when the
description is null). -/
def matchesQuery (q : List Char) (r : Repo) : Bool :=
  hasSubstr (lowerChars q) (lowerChars r.name)
  || hasSubstr (lowerChars q) (lowerChars r.ownerLogin)
  || (match r.description with
      | some d => hasSubstr (lowerChars q) (lowerChars d)
      | none => false)

/-- The view composition `filteredRepos` (src/App.tsx:971-1003).
Step by step from the source: pick the source sequence from the active tab;
if `aiFilteredIds` is non-null keep only members; return early when the
query is empty, when smart mode is on with a null AI result and no AI
request in flight, or when smart mode is on with a non-null AI result;
otherwise apply the keyword filter. -/
def filteredRepos (activeTab : Tab) (savedRepos : List SavedRepo)
    (repos : List Repo) (searchQuery : List Char)
    (aiFilteredIds : Option (List Int))
    (isSmartFilterMode isAiFiltering : Bool) : List Repo :=
  let source := if activeTab = Tab.saved then savedRepos.map SavedRepo.repo else repos
  let result := match aiFilteredIds with
    | none => source
    | some ids => source.filter (fun r => ids.contains r.id)
  if searchQuery.isEmpty then result
  else if isSmartFilterMode && aiFilteredIds.isNone && !isAiFiltering then result
  else if isSmartFilterMode && !aiFilteredIds.isNone then result
  else result.filter (matchesQuery searchQuery)

/-- Transcription of the claim C2 skip rule from the spec (section 4.5
step 3): with a non-empty query, skip text filtering exactly when
(smart mode and non-null result) or (smart mode, null result, and an AI
request in flight); otherwise keyword-filter.  Kept separate from
`filteredRepos` so the two composition rules can be compared. -/
def specComposeC2 (activeTab : Tab) (savedRepos : List SavedRepo)
    (repos : List Repo) (searchQuery : List Char)
    (aiFilteredIds : Option (List Int))
    (isSmartFilterMode isAiFiltering : Bool) : List Repo :=
  let source := if activeTab = Tab.saved then savedRepos.map SavedRepo.repo else repos
  let result := match aiFilteredIds with
    | none => source
    | some ids => source.filter (fun r => ids.contains r.id)
  if searchQuery.isEmpty then result
  else if isSmartFilterMode && !aiFilteredIds.isNone then result
  else if isSmartFilterMode && aiFilteredIds.isNone && isAiFiltering then result
  else result.filter (matchesQuery searchQuery)

/-- Transcription of the claim C3 keyword predicate from the spec (section
4.5 step 4): case-insensitive substring of name, owner login, description,
language, or any topic. -/
def specKeywordMatches (q : List Char) (r : Repo) : Bool :=
  hasSubstr (lowerChars q) (lowerChars r.name)
  || hasSubstr (lowerChars q) (lowerChars r.ownerLogin)
  || (match r.description with
      | some d => hasSubstr (lowerChars q) (lowerChars d)
      | none => false)
  || (match r.language with
      | some l => hasSubstr (lowerChars q) (lowerChars l)
      | none => false)
  || r.topics.any (fun t => hasSubstr (lowerChars q) (lowerChars t))

/-- The component state of `App` (src/App.tsx:737-757) that the feed
fetcher reads and writes: the repository sequence, the page counter, the
has-more flag, the two loading flags and the smart-filter result.
`activeTab`, `activeRange` and the query are passed separately where a
modelled function reads them. -/
structure AppState where
  repos : List Repo
  page : Nat
  hasMore : Bool
  isLoading : Bool
  isFetchingMore : Bool
  aiFilteredIds : Option (List Int)
deriving DecidableEq, Repr

/-- Outcome of one feed fetch as seen by `fetchRepos` (src/App.tsx:808-835)
after the response resolves: `success items` when the parsed body has an
`items` array (possibly empty - an empty array is truthy in JavaScript),
`noItems` when the body parses but has no `items` field (what the GitHub
search API returns on a non-success status such as 403), `failure` when
`fetch` or `response.json()` throws (network failure). -/
inductive FetchOutcome
| success (items : List Repo)
| noItems
| failure
deriving DecidableEq, Repr

/-- The synchronous prefix of `fetchRepos` (src/App.tsx:784-793), run when
the fetch is issued, before the `await`: a saved tab returns immediately;
page 1 sets `isLoading` and resets the AI filter; later pages set
`isFetchingMore`. -/
def fetchReposStart (activeTab : Tab) (pageNum : Nat) (s : AppState) : AppState :=
  if activeTab = Tab.saved then s
  else if pageNum = 1 then { s with isLoading := true, aiFilteredIds := none }
  else { s with isFetchingMore := true }

/-- The repository-sequence update of `fetchRepos` on a successful response
(src/App.tsx:813-824): page 1 replaces the sequence wholesale; later pages
append the items whose id is not in the set of ids already present. -/
def applyPage (prev : List Repo) (pageNum : Nat) (items : List Repo) : List Repo :=
  if pageNum = 1 then items
  else prev ++ items.filter (fun r => !(decide (r.id ∈ prev.map Repo.id)))

/-- The resolution of a feed fetch (src/App.tsx:813-835): on `success`,
update the sequence via `applyPage` and recompute `hasMore`
(`items.length === 30 && pageNum < 34`); on `noItems` or `failure`, set
`hasMore := false`; the `finally` block always clears both loading flags.
The source carries no cancellation token or session identity, so the
resolution applies to whatever state is current when it lands. -/
def fetchReposResolve (pageNum : Nat) (out : FetchOutcome) (s : AppState) : AppState :=
  match out with
  | FetchOutcome.success items =>
      { s with repos := applyPage s.repos pageNum items
             , hasMore := decide (items.length = 30) && decide (pageNum < 34)
             , isLoading := false
             , isFetchingMore := false }
  | FetchOutcome.noItems =>
      { s with hasMore := false, isLoading := false, isFetchingMore := false }
  | FetchOutcome.failure =>
      { s with hasMore := false, isLoading := false, isFetchingMore := false }

/-- The reset effect (src/App.tsx:841-846), run on every change of
`activeTab` or `activeRange`: reset the page counter, restore `hasMore`,
clear the repository sequence, and issue a page-1 fetch (whose synchronous
prefix is `fetchReposStart`).  The effect body does not read the range, so
a range change runs exactly the same state updates. -/
def resetEffect (activeTab : Tab) (s : AppState) : AppState :=
  fetchReposStart activeTab 1 { s with page := 1, hasMore := true, repos := [] }

/-- `handleRefresh` (src/App.tsx:901-908), synchronous prefix: reset page,
`hasMore` and the sequence, clear the AI filter, and issue a page-1 fetch. -/
def handleRefresh (activeTab : Tab) (s : AppState) : AppState :=
  fetchReposStart activeTab 1
    { s with page := 1, hasMore := true, repos := [], aiFilteredIds := none }

/-- `toggleSave` (src/App.tsx:889-899) acting on the saved collection:
if an entry with the repository id exists, remove every entry with that id;
otherwise prepend the repository stamped with the current time. -/
def toggleSave (now : Int) (repo : Repo) (prev : List SavedRepo) : List SavedRepo :=
  match prev.find? (fun r => r.repo.id == repo.id) with
  | some _ => prev.filter (fun r => r.repo.id != repo.id)
  | none => { repo := repo, savedAt := now } :: prev

/-- Ids of a saved collection, in order. -/
def savedIds (l : List SavedRepo) : List Int := l.map (fun r => r.repo.id)

/-- The localStorage load effect (src/App.tsx:760-765).  The stored record
is `none` when absent; when present, the outcome of `JSON.parse` is `some v`
on success and `none` on a parse error.  The effect reads the record and,
if present, feeds `JSON.parse(saved)` straight to `setSavedRepos` with no
`try`/`catch`, so a parse error propagates out of the effect
(`Except.error`); an absent record leaves the collection empty. -/
def loadSavedEffect (stored : Option (Option (List SavedRepo))) :
    Except Unit (List SavedRepo) :=
  match stored with
  | none => Except.ok []
  | some (some v) => Except.ok v
  | some none => Except.error ()

/-- `runSmartFilter` stores the parsed Gemini response verbatim
(src/App.tsx:949-950): `setAiFilteredIds(matchedIds)` with no intersection
against the ids of the loaded feed. -/
def smartFilterStore (matchedIds : List Int) : Option (List Int) :=
  some matchedIds

/-- Key of one AI-insight enrichment request (per repository id). -/
structure InsightKey where
  repoId : Int
deriving DecidableEq, Repr

/-- Key of one language-breakdown enrichment request (owner + name). -/
structure LangKey where
  owner : List Char
  name : List Char
deriving DecidableEq, Repr

/-- The network requests issued by one run of the `AIInsight` effect
(src/App.tsx:240-270): the effect body unconditionally builds a client and
issues exactly one `generateContent` call for the mounted repository.
There is no cache lookup, no in-flight registry and no condition guarding
the call (the `try`/`catch` only chooses the fallback text). -/
def aiInsightEffectRequests (repo : Repo) : List InsightKey :=
  [{ repoId := repo.id }]

/-- All AI-insight requests issued by a sequence of `AIInsight` mounts
(simultaneous or successive), in order. -/
def aiInsightRequests (mounts : List Repo) : List InsightKey :=
  (mounts.map aiInsightEffectRequests).flatten

/-- The network requests issued by one run of the `RepoLanguages` effect
(src/App.tsx:309-325): one unconditional `fetch` of the languages endpoint
for the mounted owner/name pair; no cache is consulted. -/
def repoLanguagesEffectRequests (owner name : List Char) : List LangKey :=
  [{ owner := owner, name := name }]

/-- All language requests issued by a sequence of `RepoLanguages` mounts. -/
def repoLanguagesRequests (mounts : List (List Char × List Char)) : List LangKey :=
  (mounts.map (fun m => repoLanguagesEffectRequests m.1 m.2)).flatten

/-- A sample repository whose language is Rust but whose name, owner and
description avoid the letters of the query used in the tests below. -/
def serdeRepo : Repo :=
  { id := 41
  , name := "code".data
  , ownerLogin := "dev".data
  , description := some "a decoding helper".data
  , language := some "Rust".data
  , topics := ["parsing".data] }

/-- A second sample repository, used as a fresh item in fetch scenarios. -/
def rNew : Repo :=
  { id := 7
  , name := "axum".data
  , ownerLogin := "tokio".data
  , description := none
  , language := some "Rust".data
  , topics := [] }

/-- A loaded session state with one fetch in flight, used as the concrete
starting point of the fetch scenarios. -/
def sOld : AppState :=
  { repos := [serdeRepo]
  , page := 1
  , hasMore := true
  , isLoading := true
  , isFetchingMore := false
  , aiFilteredIds := none }

theorem test_matches : matchesQuery "rust".data serdeRepo = false := by decide

theorem test_spec_matches : specKeywordMatches "rust".data serdeRepo = true := by decide

/-- Claim C10: the view composition only ever filters — for every active
tab, saved collection, feed sequence, query, smart-filter identifier set
(`aiFilteredIds` ranges over arbitrary integer lists, covering AI responses
stored verbatim with identifiers not present in the source) and mode flags,
the composed visible list is an order-preserving subsequence of the source
sequence; unknown identifiers can never insert items into the view. -/
theorem filteredRepos_sublist_source (activeTab : Tab)
    (savedRepos : List SavedRepo) (repos : List Repo)
    (searchQuery : List Char) (aiFilteredIds : Option (List Int))
    (isSmartFilterMode isAiFiltering : Bool) :
    (filteredRepos activeTab savedRepos repos searchQuery aiFilteredIds
        isSmartFilterMode isAiFiltering).Sublist
      (if activeTab = Tab.saved then savedRepos.map SavedRepo.repo else repos) := by
  unfold filteredRepos
  cases aiFilteredIds with
  | none =>
      dsimp only
      split_ifs <;>
        first
        | exact List.Sublist.refl _
        | exact List.filter_sublist _
  | some ids =>
      dsimp only
      split_ifs <;>
        first
        | exact List.filter_sublist _
        | exact List.Sublist.trans (List.filter_sublist _) (List.filter_sublist _)

/-- Claim C2 counterexample: with smart mode on, a null smart-filter result
and an AI request in flight, the spec rule skips text filtering while the
code applies the keyword filter, so the two compositions disagree on a
concrete input. -/
theorem specComposeC2_ne_filteredRepos :
    specComposeC2 Tab.trending [] [serdeRepo] "zz".data none true true
      ≠ filteredRepos Tab.trending [] [serdeRepo] "zz".data none true true := by
  decide

/-- Claim C2 (amended): for every input with a non-empty query, text
filtering is skipped exactly when smart mode is on and (the smart-filter
result is non-null, or no AI filter request is in flight); otherwise
keyword filtering applies. -/
theorem filteredRepos_skip_condition (activeTab : Tab)
    (savedRepos : List SavedRepo) (repos : List Repo)
    (searchQuery : List Char) (aiFilteredIds : Option (List Int))
    (isSmartFilterMode isAiFiltering : Bool)
    (h : searchQuery ≠ []) :
    filteredRepos activeTab savedRepos repos searchQuery aiFilteredIds
        isSmartFilterMode isAiFiltering =
      (let source := if activeTab = Tab.saved then savedRepos.map SavedRepo.repo else repos
       let result := match aiFilteredIds with
         | none => source
         | some ids => source.filter (fun r => ids.contains r.id)
       if isSmartFilterMode && (!aiFilteredIds.isNone || !isAiFiltering) then result
       else result.filter (matchesQuery searchQuery)) := by
  have hq : searchQuery.isEmpty = false := by
    cases searchQuery with
    | nil => exact absurd rfl h
    | cons a t => rfl
  unfold filteredRepos
  cases aiFilteredIds <;> cases isSmartFilterMode <;> cases isAiFiltering <;>
    simp [hq]

/-- Claim C2 witness: the amended skip rule at a concrete input (smart mode
on, non-null result): filtering is skipped and the AI-filtered list is
returned unchanged. -/
theorem filteredRepos_skip_condition_witness :
    "z".data ≠ ([] : List Char)
    ∧ filteredRepos Tab.trending [] [serdeRepo] "z".data (some [41]) true false
        = [serdeRepo] :=
  ⟨by decide,
   filteredRepos_skip_condition Tab.trending [] [serdeRepo] "z".data
     (some [41]) true false (by decide)⟩

/-- Claim C3 counterexample: the query "rust" matches `serdeRepo` under the
spec predicate (its language is Rust) but in keyword mode the code's
composition drops it, because the code only searches name, owner login and
description. -/
theorem filteredRepos_keyword_misses_language :
    specKeywordMatches "rust".data serdeRepo = true
    ∧ filteredRepos Tab.trending [] [serdeRepo] "rust".data none false false
        = [] := by
  decide

/-- Claim C3 (amended): in keyword mode (smart mode off) with a non-empty
query and no active smart filter, the composed list retains exactly those
entries of the source sequence where the query is a case-insensitive
substring of the name, the owner login, or the description — the primary
language and the topics are not searched. -/
theorem filteredRepos_keyword_fields (activeTab : Tab)
    (savedRepos : List SavedRepo) (repos : List Repo)
    (searchQuery : List Char) (isAiFiltering : Bool) (r : Repo)
    (h : searchQuery ≠ []) :
    filteredRepos activeTab savedRepos repos searchQuery none false isAiFiltering
      = (if activeTab = Tab.saved then savedRepos.map SavedRepo.repo else repos).filter
          (matchesQuery searchQuery)
    ∧ (r ∈ filteredRepos activeTab savedRepos repos searchQuery none false isAiFiltering
        ↔ r ∈ (if activeTab = Tab.saved then savedRepos.map SavedRepo.repo else repos)
          ∧ (hasSubstr (lowerChars searchQuery) (lowerChars r.name) = true
             ∨ hasSubstr (lowerChars searchQuery) (lowerChars r.ownerLogin) = true
             ∨ r.description.any
                 (fun d => hasSubstr (lowerChars searchQuery) (lowerChars d)) = true)) := by
  have hq : searchQuery.isEmpty = false := by
    cases searchQuery with
    | nil => exact absurd rfl h
    | cons a t => rfl
  have heq : filteredRepos activeTab savedRepos repos searchQuery none false isAiFiltering
      = (if activeTab = Tab.saved then savedRepos.map SavedRepo.repo else repos).filter
          (matchesQuery searchQuery) := by
    unfold filteredRepos
    simp [hq]
  refine ⟨heq, ?_⟩
  rw [heq, List.mem_filter]
  unfold matchesQuery
  cases hd : r.description <;> simp [hd, or_assoc]

/-- Claim C3 witness: the amended keyword rule at a concrete input: the
query "cod" is a substring of the name of `serdeRepo`, which is therefore
retained. -/
theorem filteredRepos_keyword_fields_witness :
    "cod".data ≠ ([] : List Char)
    ∧ (filteredRepos Tab.trending [] [serdeRepo] "cod".data none false false
          = List.filter (matchesQuery "cod".data) [serdeRepo]
       ∧ (serdeRepo ∈ filteredRepos Tab.trending [] [serdeRepo] "cod".data none false false
           ↔ serdeRepo ∈ [serdeRepo]
             ∧ (hasSubstr (lowerChars "cod".data) (lowerChars serdeRepo.name) = true
                ∨ hasSubstr (lowerChars "cod".data) (lowerChars serdeRepo.ownerLogin) = true
                ∨ serdeRepo.description.any
                    (fun d => hasSubstr (lowerChars "cod".data) (lowerChars d)) = true))) :=
  ⟨by decide,
   filteredRepos_keyword_fields Tab.trending [] [serdeRepo] "cod".data false
     serdeRepo (by decide)⟩

/-- Claim C1 (code evaluated at the failing input): `fetchRepos` carries no
cancellation token, so when the category changes from `trending` to
`latest` while a fetch for the old session is in flight, the stale fetch's
eventual resolution is applied to the new session's state: here it
overwrites the freshly cleared repository sequence with the stale items,
flips `hasMore`, and clears the new session's loading flag.  The claim says
a superseded resolution performs no state update. -/
theorem staleResolve_updates_state :
    (fetchReposResolve 2 (FetchOutcome.success [rNew]) (resetEffect Tab.latest sOld)).repos
        = [rNew]
    ∧ (resetEffect Tab.latest sOld).repos = []
    ∧ (fetchReposResolve 2 (FetchOutcome.success [rNew]) (resetEffect Tab.latest sOld)).isLoading
        = false
    ∧ (resetEffect Tab.latest sOld).isLoading = true
    ∧ fetchReposResolve 2 (FetchOutcome.success [rNew]) (resetEffect Tab.latest sOld)
        ≠ resetEffect Tab.latest sOld := by
  decide

/-- Claim C4 counterexample: the component state written by `fetchRepos`
after an HTTP 403 (a response body without `items`) is identical to the
state written after a generic network failure, and differs from the prior
state only in `hasMore` and the loading flags: no error message of any kind
is recorded, so nothing distinguishes the rate-limited case. -/
theorem fetchReposResolve_403_indistinct :
    fetchReposResolve 1 FetchOutcome.noItems sOld
        = fetchReposResolve 1 FetchOutcome.failure sOld
    ∧ fetchReposResolve 1 FetchOutcome.noItems sOld
        = { sOld with hasMore := false, isLoading := false, isFetchingMore := false } := by
  decide

/-- Claim C4 (amended): every feed fetch that fails (itemless non-success
response or network failure) sets `hasMore` to false and clears both
loading flags while leaving the repository sequence unchanged; no error
message is recorded and HTTP 403 produces the same state as generic
failure; the fetcher remains retriable — an explicit refresh resets the
session and re-issues a loading page-1 fetch. -/
theorem fetchReposResolve_error_state (p : Nat) (s : AppState) (tab : Tab)
    (h : tab ≠ Tab.saved) :
    (fetchReposResolve p FetchOutcome.noItems s).hasMore = false
    ∧ (fetchReposResolve p FetchOutcome.failure s).hasMore = false
    ∧ (fetchReposResolve p FetchOutcome.noItems s).repos = s.repos
    ∧ (fetchReposResolve p FetchOutcome.failure s).repos = s.repos
    ∧ (fetchReposResolve p FetchOutcome.noItems s).isLoading = false
    ∧ (fetchReposResolve p FetchOutcome.noItems s).isFetchingMore = false
    ∧ fetchReposResolve p FetchOutcome.noItems s
        = fetchReposResolve p FetchOutcome.failure s
    ∧ (handleRefresh tab (fetchReposResolve p FetchOutcome.failure s)).page = 1
    ∧ (handleRefresh tab (fetchReposResolve p FetchOutcome.failure s)).repos = []
    ∧ (handleRefresh tab (fetchReposResolve p FetchOutcome.failure s)).isLoading = true
    ∧ (handleRefresh tab (fetchReposResolve p FetchOutcome.failure s)).hasMore = true := by
  cases tab with
  | saved => exact absurd rfl h
  | trending => simp [fetchReposResolve, handleRefresh, fetchReposStart]
  | latest => simp [fetchReposResolve, handleRefresh, fetchReposStart]

/-- Claim C4 witness: the amended failure behaviour evaluated at page 1 of
the concrete session `sOld` on the trending tab. -/
theorem fetchReposResolve_error_state_witness :
    Tab.trending ≠ Tab.saved
    ∧ ((fetchReposResolve 1 FetchOutcome.noItems sOld).hasMore = false
       ∧ (fetchReposResolve 1 FetchOutcome.failure sOld).hasMore = false
       ∧ (fetchReposResolve 1 FetchOutcome.noItems sOld).repos = sOld.repos
       ∧ (fetchReposResolve 1 FetchOutcome.failure sOld).repos = sOld.repos
       ∧ (fetchReposResolve 1 FetchOutcome.noItems sOld).isLoading = false
       ∧ (fetchReposResolve 1 FetchOutcome.noItems sOld).isFetchingMore = false
       ∧ fetchReposResolve 1 FetchOutcome.noItems sOld
           = fetchReposResolve 1 FetchOutcome.failure sOld
       ∧ (handleRefresh Tab.trending (fetchReposResolve 1 FetchOutcome.failure sOld)).page = 1
       ∧ (handleRefresh Tab.trending (fetchReposResolve 1 FetchOutcome.failure sOld)).repos = []
       ∧ (handleRefresh Tab.trending (fetchReposResolve 1 FetchOutcome.failure sOld)).isLoading = true
       ∧ (handleRefresh Tab.trending (fetchReposResolve 1 FetchOutcome.failure sOld)).hasMore = true) :=
  ⟨by decide, fetchReposResolve_error_state 1 sOld Tab.trending (by decide)⟩

/-- Claim C5 (code evaluated at the failing input): the localStorage load
effect parses a present record with no `try`/`catch`, so a corrupt
(unparseable) record makes the effect throw instead of yielding the empty
collection; an absent record does yield the empty collection. -/
theorem loadSavedEffect_corrupt_throws :
    loadSavedEffect (some none) = Except.error ()
    ∧ loadSavedEffect none = Except.ok [] :=
  ⟨rfl, rfl⟩

/-- Claim C6 counterexample: a page whose own items carry a duplicate
identifier defeats the dedup: appending page 2 `[rNew, rNew]` to a session
holding `[serdeRepo]` produces a repository sequence with identifier 7
twice, because the filter only checks ids already present before the page,
not ids within the page. -/
theorem applyPage_duplicate_within_page :
    ¬ (((applyPage [serdeRepo] 2 [rNew, rNew]).map Repo.id).Nodup) := by
  decide

/-- Claim C6 (amended): provided the items of each single fetched page
carry pairwise-distinct identifiers, the repository sequence stays free of
duplicate identifiers even when pages overlap: page 1 replaces the
sequence wholesale, and pages greater than 1 append exactly the page items
whose identifier is not already present. -/
theorem applyPage_nodup (prev items : List Repo) (n : Nat)
    (h1 : (prev.map Repo.id).Nodup) (h2 : (items.map Repo.id).Nodup) :
    ((applyPage prev n items).map Repo.id).Nodup
    ∧ applyPage prev 1 items = items
    ∧ (n ≠ 1 → applyPage prev n items
        = prev ++ items.filter (fun r => !(decide (r.id ∈ prev.map Repo.id)))) := by
  refine ⟨?_, by simp [applyPage], ?_⟩
  · unfold applyPage
    split_ifs with hn
    · exact h2
    · rw [List.map_append, List.nodup_append]
      refine ⟨h1, ?_, ?_⟩
      · exact List.Nodup.sublist
          (List.Sublist.map _ (List.filter_sublist _)) h2
      · intro a ha hb
        rcases List.mem_map.mp hb with ⟨r, hr, hra⟩
        rcases List.mem_filter.mp hr with ⟨_, hkeep⟩
        simp only [Bool.not_eq_true', decide_eq_false_iff_not] at hkeep
        exact hkeep (hra ▸ ha)
  · intro hn
    unfold applyPage
    simp [hn]

/-- Claim C6 witness: the amended dedup invariant evaluated on the
concrete session `[serdeRepo]` receiving page 2 `[serdeRepo, rNew]`, a
page overlapping the session: only `rNew` is appended and the identifiers
stay distinct. -/
theorem applyPage_nodup_witness :
    (([serdeRepo].map Repo.id).Nodup ∧ (([serdeRepo, rNew].map Repo.id)).Nodup)
    ∧ (((applyPage [serdeRepo] 2 [serdeRepo, rNew]).map Repo.id).Nodup
       ∧ applyPage [serdeRepo] 1 [serdeRepo, rNew] = [serdeRepo, rNew]
       ∧ ((2 : Nat) ≠ 1 → applyPage [serdeRepo] 2 [serdeRepo, rNew]
           = [serdeRepo] ++ [serdeRepo, rNew].filter
               (fun r => !(decide (r.id ∈ [serdeRepo].map Repo.id))))) :=
  ⟨⟨by decide, by decide⟩,
   applyPage_nodup [serdeRepo] [serdeRepo, rNew] 2 (by decide) (by decide)⟩

/-- Claim C7: toggling save twice on the same repository restores the
original collection: if the repository was not saved, the collection
literally returns to its previous value; if it was saved, the identifier
membership is restored and the re-added entry sits at the front stamped
with the time of the second save (not the original `savedAt`); and a
collection with at most one entry per identifier keeps that invariant. -/
theorem toggleSave_twice (prev : List SavedRepo) (repo : Repo) (t1 t2 : Int) :
    (repo.id ∉ savedIds prev → toggleSave t2 repo (toggleSave t1 repo prev) = prev)
    ∧ (repo.id ∈ savedIds prev →
        (toggleSave t2 repo (toggleSave t1 repo prev)).head?
            = some { repo := repo, savedAt := t2 }
        ∧ ∀ j : Int,
            j ∈ savedIds (toggleSave t2 repo (toggleSave t1 repo prev))
              ↔ j ∈ savedIds prev)
    ∧ ((savedIds prev).Nodup
        → (savedIds (toggleSave t2 repo (toggleSave t1 repo prev))).Nodup) := by
  by_cases hm : repo.id ∈ savedIds prev
  · obtain ⟨a, ha, hid⟩ := List.mem_map.mp hm
    have hf1 : (prev.find? (fun r => r.repo.id == repo.id)).isSome :=
      List.find?_isSome.mpr ⟨a, ha, by simp [hid]⟩
    obtain ⟨x, hx⟩ := Option.isSome_iff_exists.mp hf1
    have honce : toggleSave t1 repo prev
        = prev.filter (fun r => r.repo.id != repo.id) := by
      unfold toggleSave
      rw [hx]
    have hf2 : (prev.filter (fun r => r.repo.id != repo.id)).find?
        (fun r => r.repo.id == repo.id) = none := by
      rw [List.find?_eq_none]
      intro b hb
      have hne := (List.mem_filter.mp hb).2
      simp only [bne_iff_ne, ne_eq] at hne
      simp [hne]
    have htwice : toggleSave t2 repo (toggleSave t1 repo prev)
        = { repo := repo, savedAt := t2 }
            :: prev.filter (fun r => r.repo.id != repo.id) := by
      rw [honce]
      unfold toggleSave
      rw [hf2]
    refine ⟨fun hn => absurd hm hn, fun _ => ⟨by rw [htwice]; rfl, ?_⟩, fun hnd => ?_⟩
    · intro j
      rw [htwice]
      simp only [savedIds, List.map_cons, List.mem_cons, List.mem_map,
        List.mem_filter, bne_iff_ne, ne_eq]
      constructor
      · rintro (rfl | ⟨r, ⟨hr, _⟩, rfl⟩)
        · exact ⟨a, ha, hid⟩
        · exact ⟨r, hr, rfl⟩
      · rintro ⟨r, hr, rfl⟩
        by_cases hcase : r.repo.id = repo.id
        · exact Or.inl hcase
        · exact Or.inr ⟨r, ⟨hr, hcase⟩, rfl⟩
    · rw [htwice]
      simp only [savedIds, List.map_cons]
      rw [List.nodup_cons]
      constructor
      · intro hmem
        rcases List.mem_map.mp hmem with ⟨r, hr, hrid⟩
        have hne := (List.mem_filter.mp hr).2
        simp only [bne_iff_ne, ne_eq] at hne
        exact hne hrid
      · exact List.Nodup.sublist
          (List.Sublist.map _ (List.filter_sublist _)) hnd
  · have hf1 : prev.find? (fun r => r.repo.id == repo.id) = none := by
      rw [List.find?_eq_none]
      intro b hb
      simp only [beq_iff_eq]
      intro hbe
      exact hm (List.mem_map.mpr ⟨b, hb, hbe⟩)
    have honce : toggleSave t1 repo prev
        = { repo := repo, savedAt := t1 } :: prev := by
      unfold toggleSave
      rw [hf1]
    have heq : toggleSave t2 repo (toggleSave t1 repo prev) = prev := by
      rw [honce]
      unfold toggleSave
      rw [List.find?_cons_of_pos _ (by simp)]
      rw [List.filter_cons]
      simp only [bne_self_eq_false, if_false, Bool.false_eq_true, ite_false]
      rw [List.filter_eq_self]
      intro b hb
      simp only [bne_iff_ne, ne_eq]
      intro hbe
      exact hm (List.mem_map.mpr ⟨b, hb, hbe⟩)
    refine ⟨fun _ => heq, fun hmem => absurd hmem hm, fun hnd => ?_⟩
    rw [heq]
    exact hnd

/-- Claim C7 witness: toggling `rNew` twice at times 100 and 200 on the
concrete collection holding `serdeRepo` saved at time 5 returns the
collection unchanged, and the identifier invariant is preserved. -/
theorem toggleSave_twice_witness :
    (rNew.id ∉ savedIds [{ repo := serdeRepo, savedAt := 5 }]
      → toggleSave 200 rNew (toggleSave 100 rNew [{ repo := serdeRepo, savedAt := 5 }])
          = [{ repo := serdeRepo, savedAt := 5 }])
    ∧ (rNew.id ∈ savedIds [{ repo := serdeRepo, savedAt := 5 }]
      → (toggleSave 200 rNew (toggleSave 100 rNew [{ repo := serdeRepo, savedAt := 5 }])).head?
            = some { repo := rNew, savedAt := 200 }
        ∧ ∀ j : Int,
            j ∈ savedIds (toggleSave 200 rNew
                (toggleSave 100 rNew [{ repo := serdeRepo, savedAt := 5 }]))
              ↔ j ∈ savedIds [{ repo := serdeRepo, savedAt := 5 }])
    ∧ ((savedIds [{ repo := serdeRepo, savedAt := 5 }]).Nodup
      → (savedIds (toggleSave 200 rNew
          (toggleSave 100 rNew [{ repo := serdeRepo, savedAt := 5 }]))).Nodup) :=
  toggleSave_twice [{ repo := serdeRepo, savedAt := 5 }] rNew 100 200

/-- Claim C8: every change of category (trending or latest) or range runs
the reset effect, which resets the page counter to 1, clears the
repository sequence before the new page-1 result lands, clears the
smart-filter result, restores `hasMore` and enters the loading state. -/
theorem resetEffect_clears_session (s : AppState) (tab : Tab)
    (h : tab ≠ Tab.saved) :
    (resetEffect tab s).page = 1
    ∧ (resetEffect tab s).repos = []
    ∧ (resetEffect tab s).aiFilteredIds = none
    ∧ (resetEffect tab s).hasMore = true
    ∧ (resetEffect tab s).isLoading = true := by
  cases tab with
  | saved => exact absurd rfl h
  | trending => simp [resetEffect, fetchReposStart]
  | latest => simp [resetEffect, fetchReposStart]

/-- Claim C8 witness: the reset effect evaluated on the concrete loaded
state `sOld` when the category changes to latest. -/
theorem resetEffect_clears_session_witness :
    Tab.latest ≠ Tab.saved
    ∧ ((resetEffect Tab.latest sOld).page = 1
       ∧ (resetEffect Tab.latest sOld).repos = []
       ∧ (resetEffect Tab.latest sOld).aiFilteredIds = none
       ∧ (resetEffect Tab.latest sOld).hasMore = true
       ∧ (resetEffect Tab.latest sOld).isLoading = true) :=
  ⟨by decide, resetEffect_clears_session sOld Tab.latest (by decide)⟩

/-- Claim C9 counterexample: two simultaneous mounts of the enrichment
components for the same key issue two network calls, not one — the effect
bodies consult no cache and join no in-flight request.  The same holds for
a later mount of an already-fetched key. -/
theorem enrichment_two_mounts_two_calls :
    (aiInsightRequests [serdeRepo, serdeRepo]).length = 2
    ∧ (aiInsightRequests [serdeRepo, serdeRepo]).length ≠ 1
    ∧ (repoLanguagesRequests
        [("dev".data, "code".data), ("dev".data, "code".data)]).length = 2 := by
  decide

/-- Claim C9 (amended): enrichment lookups are per-mount, not per-key:
every mount of `AIInsight` issues exactly one AI-insight request and every
mount of `RepoLanguages` issues exactly one languages request, so a
sequence of mounts issues exactly one network call per mount regardless of
key repetition. -/
theorem enrichment_requests_per_mount (mounts : List Repo)
    (lmounts : List (List Char × List Char)) :
    (aiInsightRequests mounts).length = mounts.length
    ∧ (repoLanguagesRequests lmounts).length = lmounts.length := by
  constructor
  · induction mounts with
    | nil => rfl
    | cons a t ih =>
        have h1 : aiInsightRequests (a :: t)
            = aiInsightEffectRequests a ++ aiInsightRequests t := by
          simp [aiInsightRequests]
        rw [h1, List.length_append, ih]
        simp [aiInsightEffectRequests, Nat.add_comm]
  · induction lmounts with
    | nil => rfl
    | cons a t ih =>
        have h1 : repoLanguagesRequests (a :: t)
            = repoLanguagesEffectRequests a.1 a.2 ++ repoLanguagesRequests t := by
          simp [repoLanguagesRequests]
        rw [h1, List.length_append, ih]
        simp [repoLanguagesEffectRequests, Nat.add_comm]
